import Mathlib

/-!
# Verification of `mandelbrot_render.py`

A shallow embedding of the core numeric pipeline of the Mandelbrot zoom
renderer.  Python floats are modelled as real numbers (`ℝ`), Python complex
numbers as `ℂ`, and Python functions that may `raise` as functions into
`Except String`.  Float-only phenomena (NaN, overflow to infinity) have no
counterpart in `ℝ`; the `isnan` branch of `get_colour` is therefore vacuous
in this model and every magnitude is a genuine real number.

Source functions embedded here (names kept from the source):
  `mandlebrot_f`, `recursion`, `get_colour`,
  `step_pixel_to_complex_coords`, `step_get_image_vals`, `zoom_in_step`.
-/

namespace Mandelbrot

/-- `mandlebrot_f(c, z) = z*z + c`, the default iteration rule. -/
def mandlebrot_f (c z : ℂ) : ℂ := z * z + c

/-- The loop body of `recursion`: starting from `z = 0`, apply
`recursion_func(c=c, z=z)` exactly `n` times. -/
def recursion_loop (c : ℂ) (recursion_func : ℂ → ℂ → ℂ) : ℕ → ℂ
  | 0 => 0
  | n + 1 => recursion_func c (recursion_loop c recursion_func n)

/-- `recursion(c, N, recursion_func)`: raises `ValueError` when `N <= 0`,
otherwise iterates the rule `N` times on `z = 0` and returns the final `z`. -/
noncomputable def recursion (c : ℂ) (N : ℤ) (recursion_func : ℂ → ℂ → ℂ) :
    Except String ℂ :=
  if N ≤ 0 then .error "Please supply a number of iterations over 0."
  else .ok (recursion_loop c recursion_func N.toNat)

/-- `get_colour(c, N, recursion_func)`: early-exits with `0` when `|c| >= 2`,
otherwise runs `recursion` and maps the final magnitude through the piecewise
colour function (cut_off = 2, scale = 0.01).  The Python `isnan` guard has no
effect over `ℝ` and is omitted: a real magnitude is never NaN. -/
noncomputable def get_colour (c : ℂ) (N : ℤ) (recursion_func : ℂ → ℂ → ℂ) :
    Except String ℝ :=
  if 2 ≤ Complex.abs c then .ok 0
  else do
    let final_z ← recursion c N recursion_func
    let abs_z := Complex.abs final_z
    if abs_z ≤ 2 then .ok 1
    else .ok (Real.exp (-(0.01) * (abs_z - 2)))

/-- The pixel width `w = 2 * (2/(min(res_x,res_y))) * 2/(2*(step+1))`
computed by `step_pixel_to_complex_coords`. -/
noncomputable def pixel_width (res_x res_y step : ℤ) : ℝ :=
  2 * (2 / (min res_x res_y : ℤ)) * 2 / (2 * ((step : ℝ) + 1))

/-- `step_pixel_to_complex_coords(u, v, res_x, res_y, focus, step)`.
Python float division raises `ZeroDivisionError` on a zero divisor; the two
divisors are `min(res_x, res_y)` and `2*(step+1)`, so the guard reproduces
exactly those failure cases.  Otherwise the map is total. -/
noncomputable def step_pixel_to_complex_coords (u v : ℤ) (res_x res_y : ℤ)
    (focus : ℂ) (step : ℤ) : Except String ℂ :=
  if min res_x res_y = 0 ∨ 2 * (step + 1) = 0 then .error "ZeroDivisionError"
  else
    let w : ℝ := pixel_width res_x res_y step
    let top_left_x : ℝ := focus.re + -w * ((res_x : ℝ) / 2) + w / 2
    let top_left_y : ℝ := focus.im + w * ((res_y : ℝ) / 2) - w / 2
    .ok ⟨top_left_x + u * w, top_left_y - v * w⟩

/-- Sequential `Except`-valued map, the embedding of a Python `for` loop that
collects one result per element and propagates the first raised exception. -/
def mapME {α β : Type} (f : α → Except String β) : List α → Except String (List β)
  | [] => .ok []
  | x :: xs => do
    let y ← f x
    let ys ← mapME f xs
    .ok (y :: ys)

/-- `step_get_image_vals(step, res_x, res_y, focus, N, recursion_func)`:
for every pixel `(u, v)` in `[0, res_x) × [0, res_y)`, map it to a complex
point and colour it; the result grid is indexed `[u][v]`. -/
noncomputable def step_get_image_vals (step res_x res_y : ℤ) (focus : ℂ)
    (N : ℤ) (recursion_func : ℂ → ℂ → ℂ) : Except String (List (List ℝ)) :=
  mapME (fun u =>
    mapME (fun v => do
      let c ← step_pixel_to_complex_coords u v res_x res_y focus step
      get_colour c N recursion_func)
    (List.range res_y.toNat |>.map Int.ofNat))
  (List.range res_x.toNat |>.map Int.ofNat)

/-- `zoom_in_step(step, ax, focus, res_x, res_y, num_frames, recentering_steps, N)`,
minus the plotting side effects: validates the resolution, rejects negative
steps, then computes the frame for the effective focus.  In Phase 1
(`step <= recentering_steps`) the effective focus is
`focus * step / recentering_steps`, whose division raises `ZeroDivisionError`
when `recentering_steps = 0`. -/
noncomputable def zoom_in_step (step : ℤ) (focus : ℂ)
    (res_x res_y num_frames : ℤ) (recentering_steps : ℤ) (N : ℤ) :
    Except String (List (List ℝ)) :=
  if res_x % 2 = 1 ∨ res_y % 2 = 1 ∨ res_x ≤ 2 ∨ res_y ≤ 2 then
    .error "Please input positive, even resolutions for x and y."
  else if step < 0 then .error "Can't have negative step"
  else if step ≤ recentering_steps then
    if recentering_steps = 0 then .error "ZeroDivisionError"
    else
      step_get_image_vals step res_x res_y
        (focus * (step : ℂ) / (recentering_steps : ℂ)) N mandlebrot_f
  else
    step_get_image_vals step res_x res_y focus N mandlebrot_f

/-! ## Basic lemmas -/

/-- `2 ≤ |z|` is the same as `4 ≤ normSq z`. -/
lemma two_le_abs_iff (z : ℂ) : 2 ≤ Complex.abs z ↔ 4 ≤ Complex.normSq z := by
  constructor <;> intro h <;> nlinarith [Complex.sq_abs z, Complex.abs.nonneg z]

/-- `|z| ≤ 2` is the same as `normSq z ≤ 4`. -/
lemma abs_le_two_iff (z : ℂ) : Complex.abs z ≤ 2 ↔ Complex.normSq z ≤ 4 := by
  constructor <;> intro h <;> nlinarith [Complex.sq_abs z, Complex.abs.nonneg z]

/-- `2 < |z|` is the same as `4 < normSq z`. -/
lemma two_lt_abs_iff (z : ℂ) : 2 < Complex.abs z ↔ 4 < Complex.normSq z := by
  constructor <;> intro h <;> nlinarith [Complex.sq_abs z, Complex.abs.nonneg z]

/-- Early exit: `|c| ≥ 2` yields colour `0` for any `N` and rule. -/
lemma get_colour_of_two_le {c : ℂ} (N : ℤ) (recursion_func : ℂ → ℂ → ℂ)
    (h : 2 ≤ Complex.abs c) : get_colour c N recursion_func = .ok 0 := by
  simp [get_colour, h]

/-- Inside the disc with a valid `N`, `get_colour` returns the piecewise
colour of the final magnitude. -/
lemma get_colour_of_abs_lt {c : ℂ} {N : ℤ} (recursion_func : ℂ → ℂ → ℂ)
    (hc : Complex.abs c < 2) (hN : 1 ≤ N) :
    get_colour c N recursion_func =
      (if Complex.abs (recursion_loop c recursion_func N.toNat) ≤ 2 then .ok 1
       else .ok (Real.exp
         (-(0.01) * (Complex.abs (recursion_loop c recursion_func N.toNat) - 2)))) := by
  rw [get_colour, if_neg (not_le.mpr hc), recursion, if_neg (by omega)]
  rfl

/-- Inside the disc, an invalid `N ≤ 0` makes `get_colour` propagate the
`ValueError` raised by `recursion`. -/
lemma get_colour_of_N_nonpos {c : ℂ} {N : ℤ} (recursion_func : ℂ → ℂ → ℂ)
    (hc : Complex.abs c < 2) (hN : N ≤ 0) :
    get_colour c N recursion_func =
      .error "Please supply a number of iterations over 0." := by
  rw [get_colour, if_neg (not_le.mpr hc), recursion, if_pos hN]
  rfl

/-! ## C5 -/

/-- C5: for every complex `c` with `|c| ≥ 2`, every integer `N` and every
iteration rule, `get_colour` returns exactly `0`, independent of `N` and of
the rule (the early exit fires before any iteration). -/
theorem C5_early_exit_zero (c : ℂ) (N : ℤ) (recursion_func : ℂ → ℂ → ℂ)
    (h : 2 ≤ Complex.abs c) :
    get_colour c N recursion_func = .ok 0 := by
  simp [get_colour, h]

/-- C5 witness: at `c = 2`, `N = 0` (even an invalid `N`), default rule. -/
theorem C5_early_exit_zero_witness :
    2 ≤ Complex.abs 2 ∧ get_colour 2 0 mandlebrot_f = .ok 0 := by
  have h : 2 ≤ Complex.abs 2 := by
    rw [two_le_abs_iff]
    simp [Complex.normSq_apply]
    norm_num
  exact ⟨h, C5_early_exit_zero 2 0 mandlebrot_f h⟩

/-! ## C2 -/

/-- C2 counterexample: at `c = 3` (so `|c| ≥ 2`) and `N = 0 ≤ 0`,
`get_colour` silently returns `0` instead of failing: the early exit fires
before `N` is ever examined. -/
theorem C2_counterexample :
    (0 : ℤ) ≤ 0 ∧ get_colour ⟨3, 0⟩ 0 mandlebrot_f = .ok 0 := by
  refine ⟨le_refl 0, get_colour_of_two_le 0 mandlebrot_f ?_⟩
  rw [two_le_abs_iff, Complex.normSq_mk]
  norm_num

/-- C2 amended: for every `c` with `|c| < 2` (so the early exit does not
fire) and every `N ≤ 0`, `get_colour` fails with the `ValueError` raised by
`recursion`, before any iteration is performed. -/
theorem C2_invalid_N_raises (c : ℂ) (N : ℤ) (recursion_func : ℂ → ℂ → ℂ)
    (hc : Complex.abs c < 2) (hN : N ≤ 0) :
    get_colour c N recursion_func =
      .error "Please supply a number of iterations over 0." :=
  get_colour_of_N_nonpos recursion_func hc hN

/-- C2 witness: at `c = 0`, `N = 0`, default rule. -/
theorem C2_invalid_N_raises_witness :
    Complex.abs 0 < 2 ∧
      get_colour 0 0 mandlebrot_f =
        .error "Please supply a number of iterations over 0." := by
  have h : Complex.abs 0 < 2 := by simp
  exact ⟨h, C2_invalid_N_raises 0 0 mandlebrot_f h (le_refl 0)⟩

/-! ## C10 -/

/-- C10: `step_pixel_to_complex_coords` is total for `step ≥ 0` and
`min(res_x, res_y) ≥ 1` (both divisors are nonzero); at `step = -1` it
would divide by zero, and the only guard preventing that call is
`zoom_in_step`'s negative-step check, performed before any mapping. -/
theorem C10_mapper_total (u v res_x res_y : ℤ) (focus : ℂ)
    (step s num_frames recentering_steps N : ℤ)
    (hstep : 0 ≤ step) (hmin : 1 ≤ min res_x res_y)
    (hres : ¬(res_x % 2 = 1 ∨ res_y % 2 = 1 ∨ res_x ≤ 2 ∨ res_y ≤ 2))
    (hneg : s < 0) :
    (∃ z, step_pixel_to_complex_coords u v res_x res_y focus step = .ok z) ∧
    step_pixel_to_complex_coords u v res_x res_y focus (-1) =
      .error "ZeroDivisionError" ∧
    zoom_in_step s focus res_x res_y num_frames recentering_steps N =
      .error "Can't have negative step" := by
  refine ⟨?_, ?_, ?_⟩
  · rw [step_pixel_to_complex_coords, if_neg (by push_neg; omega)]
    exact ⟨_, rfl⟩
  · rw [step_pixel_to_complex_coords, if_pos (by omega)]
  · rw [zoom_in_step, if_neg hres, if_pos hneg]

/-- C10 witness: `u = v = 0`, resolution `4 × 4`, `focus = 0`, `step = 0`,
and the rejected call at `s = -1`. -/
theorem C10_mapper_total_witness :
    (∃ z, step_pixel_to_complex_coords 0 0 4 4 0 0 = .ok z) ∧
    step_pixel_to_complex_coords 0 0 4 4 0 (-1) = .error "ZeroDivisionError" ∧
    zoom_in_step (-1) 0 4 4 1 5 10 = .error "Can't have negative step" :=
  C10_mapper_total 0 0 4 4 0 0 (-1) 1 5 10 (le_refl 0) (by decide)
    (by decide) (by decide)

/-! ## Pixel-width lemmas -/

/-- Closed form of the pixel width: `w = 4 / (min(res_x,res_y) * (step+1))`. -/
lemma pixel_width_eq (res_x res_y s : ℤ) (hM : 1 ≤ min res_x res_y)
    (hs : 0 ≤ s) :
    pixel_width res_x res_y s =
      4 / (((min res_x res_y : ℤ) : ℝ) * ((s : ℝ) + 1)) := by
  have hM' : ((res_x : ℝ) ⊓ (res_y : ℝ)) ≠ 0 := by
    have h1 : (0 : ℤ) < min res_x res_y := by omega
    have h2 : (0 : ℝ) < ((min res_x res_y : ℤ) : ℝ) := by exact_mod_cast h1
    push_cast at h2
    linarith
  have hs' : ((s : ℝ) + 1) ≠ 0 := by
    have : (0 : ℝ) ≤ (s : ℝ) := by exact_mod_cast hs
    linarith
  rw [pixel_width]
  push_cast
  field_simp
  ring

/-- The pixel width is positive for a valid resolution and step. -/
lemma pixel_width_pos (res_x res_y s : ℤ) (hM : 1 ≤ min res_x res_y)
    (hs : 0 ≤ s) : 0 < pixel_width res_x res_y s := by
  rw [pixel_width_eq res_x res_y s hM hs]
  have h1 : (0 : ℝ) < ((min res_x res_y : ℤ) : ℝ) := by exact_mod_cast (by omega : (0:ℤ) < min res_x res_y)
  have h2 : (0 : ℝ) < (s : ℝ) + 1 := by
    have : (0 : ℝ) ≤ (s : ℝ) := by exact_mod_cast hs
    linarith
  exact div_pos (by norm_num) (mul_pos h1 h2)

/-- The pixel width strictly decreases as the step increases. -/
lemma pixel_width_strict_anti (res_x res_y s1 s2 : ℤ)
    (hM : 1 ≤ min res_x res_y) (h0 : 0 ≤ s1) (h12 : s1 < s2) :
    pixel_width res_x res_y s2 < pixel_width res_x res_y s1 := by
  rw [pixel_width_eq res_x res_y s1 hM h0,
      pixel_width_eq res_x res_y s2 hM (by omega)]
  have h1 : (0 : ℝ) < ((min res_x res_y : ℤ) : ℝ) := by exact_mod_cast (by omega : (0:ℤ) < min res_x res_y)
  have h2 : (0 : ℝ) < (s1 : ℝ) + 1 := by
    have : (0 : ℝ) ≤ (s1 : ℝ) := by exact_mod_cast h0
    linarith
  have h3 : (s1 : ℝ) + 1 < (s2 : ℝ) + 1 := by
    have : (s1 : ℝ) < (s2 : ℝ) := by exact_mod_cast h12
    linarith
  exact div_lt_div_of_pos_left (by norm_num) (mul_pos h1 h2)
    (by nlinarith)

/-! ## C7 -/

/-- C7: the pixel width used by the mapper equals
`2 * (2 / min(res_x,res_y)) * 2 / (2*(step+1))`; it strictly decreases as
the step increases; and the distance between horizontally adjacent pixels'
complex coordinates equals the pixel width, hence also strictly decreases. -/
theorem C7_zoom_shrinks (u v res_x res_y : ℤ) (focus : ℂ) (s s1 s2 : ℤ)
    (c1 c2 : ℂ) (hM : 1 ≤ min res_x res_y) (h0 : 0 ≤ s1) (h12 : s1 < s2)
    (hs : 0 ≤ s)
    (hc1 : step_pixel_to_complex_coords u v res_x res_y focus s = .ok c1)
    (hc2 : step_pixel_to_complex_coords (u + 1) v res_x res_y focus s = .ok c2) :
    pixel_width res_x res_y s =
      2 * (2 / ((min res_x res_y : ℤ) : ℝ)) * 2 / (2 * ((s : ℝ) + 1)) ∧
    pixel_width res_x res_y s2 < pixel_width res_x res_y s1 ∧
    Complex.abs (c2 - c1) = pixel_width res_x res_y s := by
  have hguard : ¬(min res_x res_y = 0 ∨ 2 * (s + 1) = 0) := by push_neg; omega
  rw [step_pixel_to_complex_coords, if_neg hguard] at hc1 hc2
  simp only at hc1 hc2
  have e1 := Except.ok.inj hc1
  have e2 := Except.ok.inj hc2
  refine ⟨rfl, pixel_width_strict_anti res_x res_y s1 s2 hM h0 h12, ?_⟩
  rw [← e1, ← e2]
  have hdiff :
      (⟨focus.re + -pixel_width res_x res_y s * ((res_x : ℝ) / 2) +
          pixel_width res_x res_y s / 2 + (↑(u + 1)) * pixel_width res_x res_y s,
        focus.im + pixel_width res_x res_y s * ((res_y : ℝ) / 2) -
          pixel_width res_x res_y s / 2 - v * pixel_width res_x res_y s⟩ -
       ⟨focus.re + -pixel_width res_x res_y s * ((res_x : ℝ) / 2) +
          pixel_width res_x res_y s / 2 + u * pixel_width res_x res_y s,
        focus.im + pixel_width res_x res_y s * ((res_y : ℝ) / 2) -
          pixel_width res_x res_y s / 2 - v * pixel_width res_x res_y s⟩ : ℂ) =
      ⟨pixel_width res_x res_y s, 0⟩ := by
    apply Complex.ext <;> simp <;> push_cast <;> ring
  rw [hdiff, Complex.abs_apply, Complex.normSq_mk, mul_zero, add_zero,
    Real.sqrt_mul_self (le_of_lt (pixel_width_pos res_x res_y s hM hs))]

/-- C7 witness: resolution `4 × 4`, pixel `(0,0)` and `(1,0)`, `focus = 0`,
step `0` (and steps `0 < 1` for the strict decrease). -/
theorem C7_zoom_shrinks_witness :
    pixel_width 4 4 0 = 2 * (2 / ((min 4 4 : ℤ) : ℝ)) * 2 / (2 * (((0 : ℤ) : ℝ) + 1)) ∧
    pixel_width 4 4 1 < pixel_width 4 4 0 ∧
    Complex.abs (⟨-0.5, 1.5⟩ - (⟨-1.5, 1.5⟩ : ℂ)) = pixel_width 4 4 0 := by
  have hw : pixel_width 4 4 0 = 1 := by
    rw [pixel_width]; norm_num
  have hc1 : step_pixel_to_complex_coords 0 0 4 4 0 0 = .ok ⟨-1.5, 1.5⟩ := by
    rw [step_pixel_to_complex_coords, if_neg (by decide)]
    simp only [hw]
    norm_num
  have hc2 : step_pixel_to_complex_coords (0 + 1) 0 4 4 0 0 = .ok ⟨-0.5, 1.5⟩ := by
    rw [step_pixel_to_complex_coords, if_neg (by decide)]
    simp only [hw]
    norm_num
  exact C7_zoom_shrinks 0 0 4 4 0 0 0 1 ⟨-1.5, 1.5⟩ ⟨-0.5, 1.5⟩ (by decide)
    (le_refl 0) (by decide) (le_refl 0) hc1 hc2

/-! ## C8 -/

/-- C8: for an even resolution `(W, H)` with both sides `> 2`, `focus = 0`
and any `step ≥ 0`, the centre pixel `(W/2, H/2)` maps to a point whose
magnitude is strictly below one pixel width: the viewport is centred on the
focus to within one pixel. -/
theorem C8_origin_centred (res_x res_y step : ℤ) (p : ℂ)
    (hex : res_x % 2 = 0) (hey : res_y % 2 = 0)
    (hx : 2 < res_x) (hy : 2 < res_y) (hs : 0 ≤ step)
    (hp : step_pixel_to_complex_coords (res_x / 2) (res_y / 2) res_x res_y 0
            step = .ok p) :
    Complex.abs p < pixel_width res_x res_y step := by
  have hM : 1 ≤ min res_x res_y := by omega
  have hguard : ¬(min res_x res_y = 0 ∨ 2 * (step + 1) = 0) := by
    push_neg; omega
  rw [step_pixel_to_complex_coords, if_neg hguard] at hp
  simp only at hp
  have hpe := Except.ok.inj hp
  obtain ⟨kx, hkx⟩ : ∃ k, res_x = 2 * k := ⟨res_x / 2, by omega⟩
  obtain ⟨ky, hky⟩ : ∃ k, res_y = 2 * k := ⟨res_y / 2, by omega⟩
  have hux : res_x / 2 = kx := by omega
  have huy : res_y / 2 = ky := by omega
  have hpform : p = ⟨pixel_width res_x res_y step / 2,
      -(pixel_width res_x res_y step / 2)⟩ := by
    rw [← hpe, hux, huy, hkx, hky]
    apply Complex.ext <;> simp <;> push_cast <;> ring
  have hw : 0 < pixel_width res_x res_y step :=
    pixel_width_pos res_x res_y step hM hs
  have hnorm : Complex.normSq p =
      pixel_width res_x res_y step ^ 2 / 2 := by
    rw [hpform, Complex.normSq_mk]
    ring
  nlinarith [Complex.sq_abs p, Complex.abs.nonneg p]

/-- C8 witness: resolution `4 × 4`, step `0`, centre pixel `(2, 2)`. -/
theorem C8_origin_centred_witness :
    Complex.abs (⟨0.5, -0.5⟩ : ℂ) < pixel_width 4 4 0 := by
  have hw : pixel_width 4 4 0 = 1 := by rw [pixel_width]; norm_num
  have hp : step_pixel_to_complex_coords ((4:ℤ) / 2) ((4:ℤ) / 2) 4 4 0 0 =
      .ok ⟨0.5, -0.5⟩ := by
    rw [step_pixel_to_complex_coords, if_neg (by decide)]
    simp only [hw]
    norm_num
  exact C8_origin_centred 4 4 0 ⟨0.5, -0.5⟩ (by decide) (by decide) (by decide)
    (by decide) (le_refl 0) hp

/-! ## C6 -/

/-- C6: for `|c| < 2` and `N ≥ 1`, with `m` the magnitude of the final
iterate: if `m ≤ 2` the colour is exactly `1`; if `m > 2` it is
`exp(-0.01*(m-2))`, which lies strictly between `0` and `1`; and the falloff
value strictly decreases as the magnitude increases.  (The Python NaN branch
is vacuous here: a real magnitude is never NaN.) -/
theorem C6_piecewise_colour (c : ℂ) (recursion_func : ℂ → ℂ → ℂ) (N : ℤ)
    (m m2 : ℝ) (hc : Complex.abs c < 2) (hN : 1 ≤ N)
    (hm : m = Complex.abs (recursion_loop c recursion_func N.toNat))
    (hm2 : m < m2) :
    (m ≤ 2 → get_colour c N recursion_func = .ok 1) ∧
    (2 < m →
      get_colour c N recursion_func = .ok (Real.exp (-(0.01) * (m - 2))) ∧
      0 < Real.exp (-(0.01) * (m - 2)) ∧ Real.exp (-(0.01) * (m - 2)) < 1) ∧
    Real.exp (-(0.01) * (m2 - 2)) < Real.exp (-(0.01) * (m - 2)) := by
  rw [get_colour_of_abs_lt recursion_func hc hN, ← hm]
  refine ⟨fun h => by rw [if_pos h], fun h => ?_, ?_⟩
  · rw [if_neg (not_le.mpr h)]
    exact ⟨rfl, Real.exp_pos _, Real.exp_lt_one_iff.mpr (by nlinarith)⟩
  · exact Real.exp_lt_exp.mpr (by nlinarith)

/-- C6 witness: `c = 0`, default rule, `N = 1` (so `m = 0`), and `m2 = 3`. -/
theorem C6_piecewise_colour_witness :
    ((0 : ℝ) ≤ 2 → get_colour 0 1 mandlebrot_f = .ok 1) ∧
    (2 < (0 : ℝ) →
      get_colour 0 1 mandlebrot_f = .ok (Real.exp (-(0.01) * ((0:ℝ) - 2))) ∧
      0 < Real.exp (-(0.01) * ((0:ℝ) - 2)) ∧
      Real.exp (-(0.01) * ((0:ℝ) - 2)) < 1) ∧
    Real.exp (-(0.01) * ((3:ℝ) - 2)) < Real.exp (-(0.01) * ((0:ℝ) - 2)) := by
  have hm : (0 : ℝ) = Complex.abs (recursion_loop 0 mandlebrot_f (1:ℤ).toNat) := by
    simp [recursion_loop, mandlebrot_f]
  exact C6_piecewise_colour 0 mandlebrot_f 1 0 3 (by simp) (le_refl 1) hm
    (by norm_num)

/-! ## C1 -/

/-- C1 counterexample: with `recentering_steps = 0` the recentering branch is
NOT skipped at step `0`: `step ≤ recentering_steps` holds (`0 ≤ 0`), and the
effective-focus computation `focus * step / recentering_steps` divides by
zero.  Shown at `focus = 1`, resolution `4 × 4`, `N = 1`. -/
theorem C1_counterexample :
    zoom_in_step 0 1 4 4 1 0 1 = .error "ZeroDivisionError" := by
  rw [zoom_in_step, if_neg (by decide), if_neg (by decide),
    if_pos (le_refl (0:ℤ)), if_pos rfl]

/-- C1 amended: with `recentering_steps = 0` and a valid resolution, every
step `s ≥ 1` lands in phase 2 and the frame is computed with effective focus
equal to the supplied focus; but step `0` raises `ZeroDivisionError` in the
phase-1 interpolation (the phase is not skipped there). -/
theorem C1_recentering_zero (step : ℤ) (focus : ℂ)
    (res_x res_y num_frames N : ℤ)
    (hres : ¬(res_x % 2 = 1 ∨ res_y % 2 = 1 ∨ res_x ≤ 2 ∨ res_y ≤ 2))
    (hstep : 1 ≤ step) :
    zoom_in_step step focus res_x res_y num_frames 0 N =
      step_get_image_vals step res_x res_y focus N mandlebrot_f ∧
    zoom_in_step 0 focus res_x res_y num_frames 0 N =
      .error "ZeroDivisionError" := by
  constructor
  · rw [zoom_in_step, if_neg hres, if_neg (by omega), if_neg (by omega)]
  · rw [zoom_in_step, if_neg hres, if_neg (by omega), if_pos (le_refl (0:ℤ)),
      if_pos rfl]

/-- C1 witness: step `1`, `focus = 1`, resolution `4 × 4`, `N = 10`. -/
theorem C1_recentering_zero_witness :
    zoom_in_step 1 1 4 4 1 0 10 = step_get_image_vals 1 4 4 1 10 mandlebrot_f ∧
    zoom_in_step 0 1 4 4 1 0 10 = .error "ZeroDivisionError" :=
  C1_recentering_zero 1 1 4 4 1 10 (by decide) (le_refl 1)

/-! ## C4 -/

/-- C4 counterexample: the odd resolution `(3, 4)` does NOT fail in the
viewport mapper: `step_pixel_to_complex_coords` performs no resolution
validation and maps pixel `(0, 0)` at step `0`, `focus = 0` to `-4/3 + 2i`. -/
theorem C4_counterexample :
    step_pixel_to_complex_coords 0 0 3 4 0 0 = .ok ⟨-4/3, 2⟩ := by
  have hw : pixel_width 3 4 0 = 4/3 := by rw [pixel_width]; norm_num
  rw [step_pixel_to_complex_coords, if_neg (by decide)]
  simp only [hw]
  norm_num

/-- C4 amended: the resolution `(3, 4)` fails configuration validation in
`zoom_in_step` (before any pixel mapping), but `step_pixel_to_complex_coords`
performs no such validation: it maps any pixel successfully whenever
`step ≠ -1`. -/
theorem C4_odd_resolution (step : ℤ) (focus : ℂ)
    (num_frames recentering_steps N u v : ℤ) (hstep : step ≠ -1) :
    zoom_in_step step focus 3 4 num_frames recentering_steps N =
      .error "Please input positive, even resolutions for x and y." ∧
    ∃ c, step_pixel_to_complex_coords u v 3 4 focus step = .ok c := by
  constructor
  · rw [zoom_in_step, if_pos (by decide)]
  · rw [step_pixel_to_complex_coords, if_neg (by push_neg; omega)]
    exact ⟨_, rfl⟩

/-- C4 witness: step `0`, `focus = 0`, pixel `(0, 0)`. -/
theorem C4_odd_resolution_witness :
    zoom_in_step 0 0 3 4 1 5 10 =
      .error "Please input positive, even resolutions for x and y." ∧
    ∃ c, step_pixel_to_complex_coords 0 0 3 4 0 0 = .ok c :=
  C4_odd_resolution 0 0 1 5 10 0 0 (by decide)

/-! ## C3 -/

/-- A point strictly inside the disc (`normSq < 4`) with one default-rule
iteration gets colour `1` when its final magnitude is `≤ 2` — and here the
final iterate is the point itself. -/
lemma get_colour_one_iter_in (a b : ℝ) (h : Complex.normSq ⟨a, b⟩ < 4) :
    get_colour ⟨a, b⟩ 1 mandlebrot_f =
      .ok (if Complex.abs (⟨a, b⟩ : ℂ) < 2 then 1 else 0) := by
  have habs : Complex.abs (⟨a, b⟩ : ℂ) < 2 := by
    by_contra hle
    push_neg at hle
    exact absurd ((two_le_abs_iff _).mp hle) (by linarith)
  have hloop : recursion_loop ⟨a, b⟩ mandlebrot_f (1 : ℤ).toNat = ⟨a, b⟩ := by
    simp [recursion_loop, mandlebrot_f]
  rw [get_colour_of_abs_lt mandlebrot_f habs (le_refl 1), hloop,
    if_pos (le_of_lt habs), if_pos habs]

/-- A point with `normSq ≥ 4` hits the early exit and gets colour `0`. -/
lemma get_colour_one_iter_out (a b : ℝ) (h : 4 ≤ Complex.normSq ⟨a, b⟩) :
    get_colour ⟨a, b⟩ 1 mandlebrot_f =
      .ok (if Complex.abs (⟨a, b⟩ : ℂ) < 2 then 1 else 0) := by
  have habs : 2 ≤ Complex.abs (⟨a, b⟩ : ℂ) := (two_le_abs_iff _).mpr h
  rw [get_colour_of_two_le 1 mandlebrot_f habs, if_neg (not_lt.mpr habs)]

/-- C3 counterexample: in the scenario `resolution=(4,4), N=1, focus=0,
step=0`, the corner pixel `(0,0)` maps to `c = -1.5 + 1.5i` with `|c| > 2`,
and `get_colour` returns `0` (early exit), not the claimed exponential
falloff value, which is nonzero. -/
theorem C3_counterexample :
    step_pixel_to_complex_coords 0 0 4 4 0 0 = .ok ⟨-1.5, 1.5⟩ ∧
    2 < Complex.abs (⟨-1.5, 1.5⟩ : ℂ) ∧
    get_colour ⟨-1.5, 1.5⟩ 1 mandlebrot_f = .ok 0 ∧
    (0 : ℝ) ≠ Real.exp (-(0.01) * (Complex.abs (⟨-1.5, 1.5⟩ : ℂ) - 2)) := by
  have habs : 2 < Complex.abs (⟨-1.5, 1.5⟩ : ℂ) := by
    rw [two_lt_abs_iff, Complex.normSq_mk]
    norm_num
  have hw : pixel_width 4 4 0 = 1 := by rw [pixel_width]; norm_num
  refine ⟨?_, habs, get_colour_of_two_le 1 mandlebrot_f (le_of_lt habs),
    (Real.exp_pos _).ne⟩
  rw [step_pixel_to_complex_coords, if_neg (by decide)]
  simp only [hw]
  norm_num

/-- C3 amended: in the scenario `resolution=(4,4), N=1, focus=0, step=0`,
each of the 16 pixels maps to a `c` with `z_final = c` after one
default-rule iteration, and the evaluated intensity is `1` for every pixel
with `|c| < 2` (the 12 non-corner pixels) and `0` for every pixel with
`|c| ≥ 2` (the 4 corner pixels, where the early exit fires before the
exponential falloff could apply). -/
theorem C3_concrete_grid (u v : ℤ) (c : ℂ)
    (hu0 : 0 ≤ u) (hu3 : u ≤ 3) (hv0 : 0 ≤ v) (hv3 : v ≤ 3)
    (hc : step_pixel_to_complex_coords u v 4 4 0 0 = .ok c) :
    recursion c 1 mandlebrot_f = .ok c ∧
    get_colour c 1 mandlebrot_f =
      .ok (if Complex.abs c < 2 then 1 else 0) := by
  have hw : pixel_width 4 4 0 = 1 := by rw [pixel_width]; norm_num
  rw [step_pixel_to_complex_coords, if_neg (by decide)] at hc
  simp only [hw] at hc
  have hce := Except.ok.inj hc
  have hcform : c = ⟨(u : ℝ) - 1.5, 1.5 - (v : ℝ)⟩ := by
    rw [← hce]
    apply Complex.ext
    · simp
      ring_nf
    · simp
      ring_nf
  have hrec : recursion c 1 mandlebrot_f = .ok c := by
    rw [recursion, if_neg (by norm_num)]
    simp [recursion_loop, mandlebrot_f]
  refine ⟨hrec, ?_⟩
  subst hcform
  interval_cases u <;> interval_cases v <;>
    first
      | (apply get_colour_one_iter_in
         rw [Complex.normSq_mk]
         push_cast
         norm_num
         done)
      | (apply get_colour_one_iter_out
         rw [Complex.normSq_mk]
         push_cast
         norm_num
         done)

/-- C3 witness: the corner pixel `(0, 0)`. -/
theorem C3_concrete_grid_witness :
    recursion ⟨-1.5, 1.5⟩ 1 mandlebrot_f = .ok ⟨-1.5, 1.5⟩ ∧
    get_colour ⟨-1.5, 1.5⟩ 1 mandlebrot_f =
      .ok (if Complex.abs (⟨-1.5, 1.5⟩ : ℂ) < 2 then 1 else 0) := by
  have hw : pixel_width 4 4 0 = 1 := by rw [pixel_width]; norm_num
  have hc : step_pixel_to_complex_coords 0 0 4 4 0 0 = .ok ⟨-1.5, 1.5⟩ := by
    rw [step_pixel_to_complex_coords, if_neg (by decide)]
    simp only [hw]
    norm_num
  exact C3_concrete_grid 0 0 ⟨-1.5, 1.5⟩ (le_refl 0) (by decide) (le_refl 0)
    (by decide) hc

/-! ## C9 -/

/-- A sequential `Except`-map whose every element succeeds with a value
satisfying `P` succeeds with a list of the same length, all of whose
elements satisfy `P`. -/
lemma mapME_ok {α β : Type} (f : α → Except String β) (P : β → Prop)
    (l : List α) (h : ∀ x ∈ l, ∃ y, f x = .ok y ∧ P y) :
    ∃ ys, mapME f l = .ok ys ∧ ys.length = l.length ∧ ∀ y ∈ ys, P y := by
  induction l with
  | nil => exact ⟨[], rfl, rfl, by simp⟩
  | cons x xs ih =>
    obtain ⟨y, hy, hPy⟩ := h x (by simp)
    obtain ⟨ys, hys, hlen, hP⟩ := ih (fun a ha => h a (by simp [ha]))
    refine ⟨y :: ys, ?_, by simp [hlen], ?_⟩
    · rw [mapME, hy, hys]
      rfl
    · intro z hz
      rcases List.mem_cons.mp hz with rfl | hz
      · exact hPy
      · exact hP z hz

/-- The mapper succeeds for any pixel once `min(res_x,res_y) ≥ 1` and
`step ≥ 0`. -/
lemma step_pixel_ok (u v res_x res_y : ℤ) (focus : ℂ) (step : ℤ)
    (hM : 1 ≤ min res_x res_y) (hs : 0 ≤ step) :
    ∃ c, step_pixel_to_complex_coords u v res_x res_y focus step = .ok c := by
  rw [step_pixel_to_complex_coords, if_neg (by push_neg; omega)]
  exact ⟨_, rfl⟩

/-- For `N ≥ 1`, `get_colour` succeeds and its value lies in `[0, 1]`. -/
lemma get_colour_bounds (c : ℂ) (N : ℤ) (recursion_func : ℂ → ℂ → ℂ)
    (hN : 1 ≤ N) :
    ∃ r, get_colour c N recursion_func = .ok r ∧ 0 ≤ r ∧ r ≤ 1 := by
  by_cases h : 2 ≤ Complex.abs c
  · exact ⟨0, get_colour_of_two_le N recursion_func h, le_refl 0, zero_le_one⟩
  · rw [get_colour_of_abs_lt recursion_func (not_le.mp h) hN]
    by_cases hm : Complex.abs (recursion_loop c recursion_func N.toNat) ≤ 2
    · exact ⟨1, by rw [if_pos hm], zero_le_one, le_refl 1⟩
    · refine ⟨Real.exp (-(0.01) *
          (Complex.abs (recursion_loop c recursion_func N.toNat) - 2)),
        by rw [if_neg hm], le_of_lt (Real.exp_pos _), le_of_lt ?_⟩
      apply Real.exp_lt_one_iff.mpr
      push_neg at hm
      nlinarith

/-- C9: for every valid input (even resolution with both sides `> 2`,
`N ≥ 1`, any focus, any `step ≥ 0`), `step_get_image_vals` returns a grid
of exactly `res_x` rows of `res_y` cells each, and every cell value lies in
the closed interval `[0, 1]`. -/
theorem C9_grid_dims_bounded (step res_x res_y N : ℤ) (focus : ℂ)
    (recursion_func : ℂ → ℂ → ℂ)
    (hex : res_x % 2 = 0) (hey : res_y % 2 = 0)
    (hx : 2 < res_x) (hy : 2 < res_y) (hN : 1 ≤ N) (hs : 0 ≤ step) :
    ∃ g, step_get_image_vals step res_x res_y focus N recursion_func = .ok g ∧
      g.length = res_x.toNat ∧
      (∀ row ∈ g, row.length = res_y.toNat) ∧
      (∀ row ∈ g, ∀ x ∈ row, 0 ≤ x ∧ x ≤ 1) := by
  have hM : 1 ≤ min res_x res_y := by omega
  have hrowP : ∀ u ∈ (List.range res_x.toNat |>.map Int.ofNat),
      ∃ row, mapME (fun v => do
          let c ← step_pixel_to_complex_coords u v res_x res_y focus step
          get_colour c N recursion_func)
        (List.range res_y.toNat |>.map Int.ofNat) = .ok row ∧
        (row.length = res_y.toNat ∧ ∀ x ∈ row, 0 ≤ x ∧ x ≤ 1) := by
    intro u _
    have hcell : ∀ v ∈ (List.range res_y.toNat |>.map Int.ofNat),
        ∃ r, (do
            let c ← step_pixel_to_complex_coords u v res_x res_y focus step
            get_colour c N recursion_func) = .ok r ∧ (0 ≤ r ∧ r ≤ 1) := by
      intro v _
      obtain ⟨c, hc⟩ := step_pixel_ok u v res_x res_y focus step hM hs
      obtain ⟨r, hr, h0, h1⟩ := get_colour_bounds c N recursion_func hN
      refine ⟨r, ?_, h0, h1⟩
      rw [hc]
      exact hr
    obtain ⟨row, hrow, hlen, hP⟩ := mapME_ok _ _ _ hcell
    refine ⟨row, hrow, ?_, hP⟩
    rw [hlen]
    simp
  obtain ⟨g, hg, hglen, hgP⟩ := mapME_ok _ _ _ hrowP
  refine ⟨g, ?_, ?_, fun row hr => (hgP row hr).1, fun row hr => (hgP row hr).2⟩
  · rw [step_get_image_vals]
    exact hg
  · rw [hglen]
    simp

/-- C9 witness: step `0`, resolution `4 × 4`, `focus = 0`, `N = 1`,
default rule. -/
theorem C9_grid_dims_bounded_witness :
    ∃ g, step_get_image_vals 0 4 4 0 1 mandlebrot_f = .ok g ∧
      g.length = (4 : ℤ).toNat ∧
      (∀ row ∈ g, row.length = (4 : ℤ).toNat) ∧
      (∀ row ∈ g, ∀ x ∈ row, 0 ≤ x ∧ x ≤ 1) :=
  C9_grid_dims_bounded 0 4 4 1 0 mandlebrot_f (by decide) (by decide)
    (by decide) (by decide) (le_refl 1) (le_refl 0)

end Mandelbrot
